import Mathlib

set_option maxRecDepth 4000

/-!
Verification of the Blackjack round engine (DeckService / BlackjackService)
from the backend implementation plan: deck construction and shuffling, hand
scoring with soft-ace adjustment, the hit and stand transitions with dealer
auto-play, and outcome classification.  All definitions are shallow
embeddings of the JavaScript source; JS array mutation is modelled by
explicit state passing, `Math.random()` draws by a supplied choice function,
and runtime failures (reading a property of `undefined`) by `Option`.
-/

namespace Blackjack

/-- The four suits from `DeckService.suits`. -/
inductive Suit where
  | hearts
  | diamonds
  | clubs
  | spades
deriving DecidableEq, Repr, Fintype

/-- The thirteen ranks from `DeckService.ranks` (strings in the source). -/
inductive Rank where
  | A
  | r2
  | r3
  | r4
  | r5
  | r6
  | r7
  | r8
  | r9
  | r10
  | J
  | Q
  | K
deriving DecidableEq, Repr, Fintype

/-- A card `{ suit, rank, value }`; `value` is stored at creation time. -/
structure Card where
  suit : Suit
  rank : Rank
  value : Nat
deriving DecidableEq, Repr

/-- `DeckService.suits` in source order. -/
def suits : List Suit := [.hearts, .diamonds, .clubs, .spades]

/-- `DeckService.ranks` in source order. -/
def ranks : List Rank :=
  [.A, .r2, .r3, .r4, .r5, .r6, .r7, .r8, .r9, .r10, .J, .Q, .K]

/-- `DeckService.getCardValue`: Ace 11, face cards 10, numerals their face value. -/
def getCardValue : Rank → Nat
  | .A => 11
  | .r2 => 2
  | .r3 => 3
  | .r4 => 4
  | .r5 => 5
  | .r6 => 6
  | .r7 => 7
  | .r8 => 8
  | .r9 => 9
  | .r10 => 10
  | .J => 10
  | .Q => 10
  | .K => 10

/-- The deck built by the nested `for` loops in `createDeck`, before shuffling:
suit-major order, each card's value computed by `getCardValue`. -/
def orderedDeck : List Card :=
  (suits.map fun suit => ranks.map fun rank => ⟨suit, rank, getCardValue rank⟩).flatten

/-- The JS destructuring swap `[a[i], a[j]] = [a[j], a[i]]`: exchanges the
entries at positions `i` and `j` when both are in bounds. -/
def swapList {α : Type} (l : List α) (i j : Nat) : List α :=
  match l[i]?, l[j]? with
  | some a, some b => (l.set i b).set j a
  | _, _ => l

/-- The Fisher–Yates loop of `shuffleDeck`, counting the index `i` down to 1;
`choices i` stands for the draw `Math.floor(Math.random() * (i + 1))`. -/
def fisherYatesAux (choices : Nat → Nat) : List Card → Nat → List Card
  | shuffled, 0 => shuffled
  | shuffled, i + 1 => fisherYatesAux choices (swapList shuffled (i + 1) (choices (i + 1))) i

/-- `DeckService.shuffleDeck`: copy the deck, then run Fisher–Yates from the
last index down to 1. -/
def shuffleDeck (deck : List Card) (choices : Nat → Nat) : List Card :=
  fisherYatesAux choices deck (deck.length - 1)

/-- `DeckService.createDeck`: the 52-card product, shuffled. -/
def createDeck (choices : Nat → Nat) : List Card :=
  shuffleDeck orderedDeck choices

/-- `DeckService.dealCards`: `deck.splice(0, count)` removes and returns the
first `count` cards (all of them when fewer remain) and leaves the suffix.
The result is `(dealt, remaining deck)`. -/
def dealCards (deck : List Card) (count : Nat) : List Card × List Card :=
  (deck.take count, deck.drop count)

/-- The six `gameStatus` strings of the engine. -/
inductive Status where
  | active
  | player_bust
  | dealer_bust
  | player_win
  | dealer_win
  | tie
deriving DecidableEq, Repr

/-- The three-way outcome returned by `determineGameResult` (`null` → `none`). -/
inductive GameResult where
  | win
  | loss
  | tie
deriving DecidableEq, Repr

/-- `this.DEALER_STAND_THRESHOLD` from the `BlackjackService` constructor. -/
def DEALER_STAND_THRESHOLD : Nat := 17

/-- Sum of the stored card values, the first phase of `calculateHandScore`. -/
def handTotal (hand : List Card) : Nat :=
  (hand.map Card.value).sum

/-- Number of cards of rank Ace in a hand, the `aceCount` accumulator. -/
def aceCount (hand : List Card) : Nat :=
  hand.countP fun c => decide (c.rank = Rank.A)

/-- The `while (score > 21 && aceCount > 0) { score -= 10; aceCount--; }`
loop of `calculateHandScore`. -/
def reduceAces : Nat → Nat → Nat
  | score, 0 => score
  | score, aces + 1 => if 21 < score then reduceAces (score - 10) aces else score

/-- `BlackjackService.calculateHandScore`. -/
def calculateHandScore (hand : List Card) : Nat :=
  reduceAces (handTotal hand) (aceCount hand)

/-- The game-state object built and threaded by `BlackjackService`. -/
structure GameState where
  deck : List Card
  playerHand : List Card
  dealerHand : List Card
  playerScore : Nat
  dealerScore : Nat
  isPlayerTurn : Bool
  isGameOver : Bool
  gameStatus : Status
deriving DecidableEq, Repr

/-- `BlackjackService.startNewGame`: fresh shuffled deck, two cards to the
player, then two to the dealer. -/
def startNewGame (choices : Nat → Nat) : GameState :=
  let deck := createDeck choices
  let p := dealCards deck 2
  let d := dealCards p.2 2
  { deck := d.2
    playerHand := p.1
    dealerHand := d.1
    playerScore := calculateHandScore p.1
    dealerScore := calculateHandScore d.1
    isPlayerTurn := true
    isGameOver := false
    gameStatus := .active }

/-- `BlackjackService.playerHit`.  Dealing from an empty deck makes the JS
code read `.value` of `undefined` (a thrown `TypeError`), modelled as `none`. -/
def playerHit (s : GameState) : Option GameState :=
  match s.deck with
  | [] => none
  | newCard :: rest =>
    let playerHand := s.playerHand ++ [newCard]
    let playerScore := calculateHandScore playerHand
    some { s with
      deck := rest
      playerHand := playerHand
      playerScore := playerScore
      isGameOver := decide (21 < playerScore)
      gameStatus := if 21 < playerScore then .player_bust else .active }

/-- The dealer auto-play loop of `playerStand`: while the recomputed hand
score is below the stand threshold, move one card from the deck to the
dealer's hand.  Running out of cards mid-loop is the same `undefined` crash
as in `playerHit`, modelled as `none`. -/
def dealerDraw : List Card → List Card → Option (List Card × List Card)
  | [], hand =>
    if calculateHandScore hand < DEALER_STAND_THRESHOLD then none
    else some ([], hand)
  | c :: rest, hand =>
    if calculateHandScore hand < DEALER_STAND_THRESHOLD then dealerDraw rest (hand ++ [c])
    else some (c :: rest, hand)

/-- `BlackjackService.playerStand`: dealer auto-play, then outcome
classification against the stored `playerScore`. -/
def playerStand (s : GameState) : Option GameState :=
  match dealerDraw s.deck s.dealerHand with
  | none => none
  | some (deck, dealerHand) =>
    let dealerScore := calculateHandScore dealerHand
    some { s with
      deck := deck
      dealerHand := dealerHand
      dealerScore := dealerScore
      isPlayerTurn := false
      isGameOver := true
      gameStatus :=
        if 21 < dealerScore then .dealer_bust
        else if s.playerScore < dealerScore then .dealer_win
        else if dealerScore < s.playerScore then .player_win
        else .tie }

/-- `BlackjackService.determineGameResult`. -/
def determineGameResult : Status → Option GameResult
  | .player_bust => some .loss
  | .dealer_win => some .loss
  | .dealer_bust => some .win
  | .player_win => some .win
  | .tie => some .tie
  | .active => none

/-- Modelled from the spec: the guarded `deal` of §4.1, which fails with
`InsufficientCardsError` when `count` exceeds the remaining length.  The
source has no such guard; this definition follows the spec wording and is
used only to compare the two behaviours. -/
def dealCardsSpec (deck : List Card) (count : Nat) : Option (List Card × List Card) :=
  if deck.length < count then none
  else some (deck.take count, deck.drop count)

/-- A concrete state on which the player stands at 20 while the dealer shows
12 with an 8 on top of the deck. -/
def standExample : GameState :=
  { deck := [⟨.clubs, .r8, 8⟩, ⟨.spades, .r3, 3⟩]
    playerHand := [⟨.hearts, .K, 10⟩, ⟨.diamonds, .Q, 10⟩]
    dealerHand := [⟨.spades, .r10, 10⟩, ⟨.hearts, .r2, 2⟩]
    playerScore := 20
    dealerScore := 12
    isPlayerTurn := true
    isGameOver := false
    gameStatus := .active }

/-- The state `playerStand` produces from `standExample`: the dealer draws
the 8 to exactly 20 and the round is a tie. -/
def standExampleResult : GameState :=
  { deck := [⟨.spades, .r3, 3⟩]
    playerHand := [⟨.hearts, .K, 10⟩, ⟨.diamonds, .Q, 10⟩]
    dealerHand := [⟨.spades, .r10, 10⟩, ⟨.hearts, .r2, 2⟩, ⟨.clubs, .r8, 8⟩]
    playerScore := 20
    dealerScore := 20
    isPlayerTurn := false
    isGameOver := true
    gameStatus := .tie }

/-- A finished round (`isGameOver = true`) with a card left in the deck,
used to probe the missing `InvalidActionError` guard of `playerHit`. -/
def finishedExample : GameState :=
  { deck := [⟨.hearts, .r2, 2⟩]
    playerHand := [⟨.hearts, .K, 10⟩, ⟨.diamonds, .Q, 10⟩]
    dealerHand := [⟨.spades, .r10, 10⟩, ⟨.hearts, .r9, 9⟩]
    playerScore := 20
    dealerScore := 19
    isPlayerTurn := false
    isGameOver := true
    gameStatus := .player_win }

/-- What `playerHit` actually returns on `finishedExample`: it deals the 2
onto the already-finished 20, busting the player hand to 22 and overwriting
the recorded `player_win` outcome with `player_bust`. -/
def finishedExampleHit : GameState :=
  { deck := []
    playerHand := [⟨.hearts, .K, 10⟩, ⟨.diamonds, .Q, 10⟩, ⟨.hearts, .r2, 2⟩]
    dealerHand := [⟨.spades, .r10, 10⟩, ⟨.hearts, .r9, 9⟩]
    playerScore := 22
    dealerScore := 19
    isPlayerTurn := false
    isGameOver := true
    gameStatus := .player_bust }

/-- A small three-card deck used to instantiate the dealing lemma. -/
def threeCardDeck : List Card :=
  [⟨.hearts, .A, 11⟩, ⟨.spades, .K, 10⟩, ⟨.clubs, .r7, 7⟩]

/-- A mid-round state whose deck still holds 17 properly-valued cards, used
to instantiate the dealer-loop termination bound. -/
def standExample17 : GameState :=
  { deck := List.replicate 17 ⟨.hearts, .r2, 2⟩
    playerHand := [⟨.hearts, .K, 10⟩, ⟨.diamonds, .Q, 10⟩]
    dealerHand := [⟨.spades, .r10, 10⟩, ⟨.clubs, .r2, 2⟩]
    playerScore := 20
    dealerScore := 12
    isPlayerTurn := true
    isGameOver := false
    gameStatus := .active }

/-- States reachable from `startNewGame` by hit and stand transitions in
which every deal is fully served. -/
inductive Reachable : GameState → Prop where
  | start (choices : Nat → Nat) (h : ∀ i, choices i ≤ i) :
      Reachable (startNewGame choices)
  | hit {s s' : GameState} : Reachable s → playerHit s = some s' → Reachable s'
  | stand {s s' : GameState} : Reachable s → playerStand s = some s' → Reachable s'

/-! ### Scoring (claim C1) -/

/-- Characterisation of the ace-reduction loop: it subtracts `10` exactly `r`
times where `r` is bounded by the ace budget, the result is either at most 21
or the budget is exhausted, and every reduction was forced by a running total
above 21. -/
theorem reduceAces_spec (a total : Nat) :
    ∃ r, r ≤ a ∧ reduceAces total a = total - 10 * r ∧
      (reduceAces total a ≤ 21 ∨ r = a) ∧
      (∀ k, k < r → 21 < total - 10 * k) := by
  induction a generalizing total with
  | zero => exact ⟨0, by simp [reduceAces]⟩
  | succ a ih =>
    by_cases h : 21 < total
    · obtain ⟨r, hr, heq, hstop, hforced⟩ := ih (total - 10)
      refine ⟨r + 1, by omega, ?_, ?_, ?_⟩
      · simp only [reduceAces, if_pos h]
        omega
      · simp only [reduceAces, if_pos h]
        omega
      · intro k hk
        cases k with
        | zero => simpa using h
        | succ k =>
          have := hforced k (by omega)
          omega
    · refine ⟨0, Nat.zero_le _, by simp [reduceAces, h], Or.inl ?_, by intro k hk; omega⟩
      simp [reduceAces, h]
      omega

/-- C1: `calculateHandScore` sums the cards' assigned values and then reduces
the total by 10 once per Ace, one Ace at a time, only while the running total
exceeds 21 and an unreduced Ace remains; when even full reduction stays above
21 it returns that over-21 total. -/
theorem calculateHandScore_spec (hand : List Card) :
    ∃ r, r ≤ aceCount hand ∧
      calculateHandScore hand = handTotal hand - 10 * r ∧
      (calculateHandScore hand ≤ 21 ∨ r = aceCount hand) ∧
      (∀ k, k < r → 21 < handTotal hand - 10 * k) ∧
      (21 < handTotal hand - 10 * aceCount hand →
        calculateHandScore hand = handTotal hand - 10 * aceCount hand) := by
  obtain ⟨r, hr, heq, hstop, hforced⟩ := reduceAces_spec (aceCount hand) (handTotal hand)
  refine ⟨r, hr, heq, hstop, hforced, fun hbust => ?_⟩
  have hge : handTotal hand - 10 * r ≥ handTotal hand - 10 * aceCount hand := by
    omega
  rcases hstop with hle | hra
  · omega
  · simp [calculateHandScore, heq, hra]

/-- Concrete instance of C1 at the two-ace hand A, A, 9 (scores to 21). -/
theorem calculateHandScore_spec_witness :
    ∃ r, r ≤ aceCount [⟨.hearts, .A, 11⟩, ⟨.spades, .A, 11⟩, ⟨.clubs, .r9, 9⟩] ∧
      calculateHandScore [⟨.hearts, .A, 11⟩, ⟨.spades, .A, 11⟩, ⟨.clubs, .r9, 9⟩] =
        handTotal [⟨.hearts, .A, 11⟩, ⟨.spades, .A, 11⟩, ⟨.clubs, .r9, 9⟩] - 10 * r ∧
      (calculateHandScore [⟨.hearts, .A, 11⟩, ⟨.spades, .A, 11⟩, ⟨.clubs, .r9, 9⟩] ≤ 21 ∨
        r = aceCount [⟨.hearts, .A, 11⟩, ⟨.spades, .A, 11⟩, ⟨.clubs, .r9, 9⟩]) ∧
      (∀ k, k < r →
        21 < handTotal [⟨.hearts, .A, 11⟩, ⟨.spades, .A, 11⟩, ⟨.clubs, .r9, 9⟩] - 10 * k) ∧
      (21 < handTotal [⟨.hearts, .A, 11⟩, ⟨.spades, .A, 11⟩, ⟨.clubs, .r9, 9⟩] -
          10 * aceCount [⟨.hearts, .A, 11⟩, ⟨.spades, .A, 11⟩, ⟨.clubs, .r9, 9⟩] →
        calculateHandScore [⟨.hearts, .A, 11⟩, ⟨.spades, .A, 11⟩, ⟨.clubs, .r9, 9⟩] =
          handTotal [⟨.hearts, .A, 11⟩, ⟨.spades, .A, 11⟩, ⟨.clubs, .r9, 9⟩] -
            10 * aceCount [⟨.hearts, .A, 11⟩, ⟨.spades, .A, 11⟩, ⟨.clubs, .r9, 9⟩]) :=
  calculateHandScore_spec [⟨.hearts, .A, 11⟩, ⟨.spades, .A, 11⟩, ⟨.clubs, .r9, 9⟩]

/-! ### Outcome classification (claim C9) -/

/-- C9: `determineGameResult` maps player_bust and dealer_win to loss,
dealer_bust and player_win to win, tie to tie, and active to no result. -/
theorem determineGameResult_spec :
    determineGameResult .player_bust = some .loss ∧
    determineGameResult .dealer_win = some .loss ∧
    determineGameResult .dealer_bust = some .win ∧
    determineGameResult .player_win = some .win ∧
    determineGameResult .tie = some .tie ∧
    determineGameResult .active = none :=
  ⟨rfl, rfl, rfl, rfl, rfl, rfl⟩

/-! ### The hit transition (claim C3) -/

/-- C3: on a state with a non-empty deck, `playerHit` moves exactly the front
card of the deck onto the player's hand, recomputes the player's score from
the new hand, busts (game over, `player_bust`) exactly when that score
exceeds 21 and otherwise stays `active` and not over, leaving the turn flag
and the dealer's side untouched. -/
theorem playerHit_spec (s : GameState) (c : Card) (rest : List Card)
    (hdeck : s.deck = c :: rest) :
    ∃ s', playerHit s = some s' ∧
      s'.deck = rest ∧
      s'.playerHand = s.playerHand ++ [c] ∧
      s'.playerScore = calculateHandScore (s.playerHand ++ [c]) ∧
      s'.dealerHand = s.dealerHand ∧
      s'.dealerScore = s.dealerScore ∧
      s'.isPlayerTurn = s.isPlayerTurn ∧
      (21 < s'.playerScore → s'.isGameOver = true ∧ s'.gameStatus = .player_bust) ∧
      (s'.playerScore ≤ 21 → s'.isGameOver = false ∧ s'.gameStatus = .active) := by
  obtain ⟨deck, ph, dh, ps, ds, ipt, igo, gs⟩ := s
  simp only at hdeck
  subst hdeck
  refine ⟨_, rfl, rfl, rfl, rfl, rfl, rfl, rfl, ?_, ?_⟩ <;>
    · intro hsc
      simp only at hsc
      constructor <;> simp [hsc]

/-- Instance of C3: hitting at score 18 with a 6 on top of the deck busts to
24 and ends the round. -/
theorem playerHit_spec_witness :
    ∃ s', playerHit
        { deck := [⟨.diamonds, .r6, 6⟩]
          playerHand := [⟨.hearts, .K, 10⟩, ⟨.clubs, .r8, 8⟩]
          dealerHand := [⟨.spades, .r10, 10⟩]
          playerScore := 18
          dealerScore := 10
          isPlayerTurn := true
          isGameOver := false
          gameStatus := .active } = some s' ∧
      s'.deck = [] ∧
      s'.playerHand = [⟨.hearts, .K, 10⟩, ⟨.clubs, .r8, 8⟩] ++ [⟨.diamonds, .r6, 6⟩] ∧
      s'.playerScore =
        calculateHandScore ([⟨.hearts, .K, 10⟩, ⟨.clubs, .r8, 8⟩] ++ [⟨.diamonds, .r6, 6⟩]) ∧
      s'.dealerHand = [⟨.spades, .r10, 10⟩] ∧
      s'.dealerScore = 10 ∧
      s'.isPlayerTurn = true ∧
      (21 < s'.playerScore → s'.isGameOver = true ∧ s'.gameStatus = .player_bust) ∧
      (s'.playerScore ≤ 21 → s'.isGameOver = false ∧ s'.gameStatus = .active) :=
  playerHit_spec _ _ _ rfl

/-! ### The stand transition (claim C2) -/

/-- What a successful run of the dealer auto-play loop produces: the drawn
cards come off the front of the deck in order, every draw happened with the
recomputed hand score still below the stand threshold, and the loop stops as
soon as the recomputed score reaches the threshold. -/
theorem dealerDraw_sound (deck : List Card) :
    ∀ hand deck' hand', dealerDraw deck hand = some (deck', hand') →
      ∃ drawn, hand' = hand ++ drawn ∧ deck = drawn ++ deck' ∧
        DEALER_STAND_THRESHOLD ≤ calculateHandScore hand' ∧
        ∀ k, k < drawn.length →
          calculateHandScore (hand ++ drawn.take k) < DEALER_STAND_THRESHOLD := by
  induction deck with
  | nil =>
    intro hand deck' hand' h
    simp only [dealerDraw] at h
    split at h
    · exact absurd h (by simp)
    · next hhigh =>
      simp only [Option.some.injEq, Prod.mk.injEq] at h
      obtain ⟨rfl, rfl⟩ := h
      exact ⟨[], by simp, by simp, by omega, by intro k hk; simp at hk⟩
  | cons c rest ih =>
    intro hand deck' hand' h
    simp only [dealerDraw] at h
    split at h
    · next hlow =>
      obtain ⟨drawn, hh, hd, hstop, hlt⟩ := ih (hand ++ [c]) deck' hand' h
      refine ⟨c :: drawn, by simpa using hh, by simpa using hd, hstop, ?_⟩
      intro k hk
      cases k with
      | zero => simpa using hlow
      | succ k =>
        have := hlt k (by simpa using hk)
        simpa using this
    · next hhigh =>
      simp only [Option.some.injEq, Prod.mk.injEq] at h
      obtain ⟨rfl, rfl⟩ := h
      exact ⟨[], by simp, by simp, by omega, by intro k hk; simp at hk⟩

/-- C2: on a state where the player stands, `playerStand` clears the turn
flag, has the dealer draw from the front of the deck while the recomputed
dealer score is below 17 (stopping at 17 or higher), recomputes `dealerScore`
from the final dealer hand, classifies the outcome by bust / score
comparison, and sets `isGameOver` unconditionally. -/
theorem playerStand_spec (s s' : GameState)
    (_hnt : s.isGameOver = false) (h : playerStand s = some s') :
    s'.isPlayerTurn = false ∧
    s'.isGameOver = true ∧
    s'.playerHand = s.playerHand ∧
    s'.playerScore = s.playerScore ∧
    s'.dealerScore = calculateHandScore s'.dealerHand ∧
    DEALER_STAND_THRESHOLD ≤ s'.dealerScore ∧
    (∃ drawn, s'.dealerHand = s.dealerHand ++ drawn ∧ s.deck = drawn ++ s'.deck ∧
      ∀ k, k < drawn.length →
        calculateHandScore (s.dealerHand ++ drawn.take k) < DEALER_STAND_THRESHOLD) ∧
    s'.gameStatus =
      (if 21 < s'.dealerScore then Status.dealer_bust
       else if s.playerScore < s'.dealerScore then Status.dealer_win
       else if s'.dealerScore < s.playerScore then Status.player_win
       else Status.tie) := by
  unfold playerStand at h
  cases hd : dealerDraw s.deck s.dealerHand with
  | none => rw [hd] at h; exact absurd h (by simp)
  | some r =>
    obtain ⟨deck₁, hand₁⟩ := r
    rw [hd] at h
    simp only [Option.some.injEq] at h
    subst h
    obtain ⟨drawn, hh, hdk, hstop, hlt⟩ := dealerDraw_sound s.deck s.dealerHand deck₁ hand₁ hd
    exact ⟨rfl, rfl, rfl, rfl, rfl, hstop, ⟨drawn, hh, hdk, hlt⟩, rfl⟩

/-- Instance of C2: standing on 20 against a dealer 12 that draws to exactly
20 yields a tie, with the turn flag cleared and the round over. -/
theorem playerStand_spec_witness :
    standExample.isGameOver = false ∧
    playerStand standExample = some standExampleResult ∧
    (standExampleResult.isPlayerTurn = false ∧
      standExampleResult.isGameOver = true ∧
      standExampleResult.playerHand = standExample.playerHand ∧
      standExampleResult.playerScore = standExample.playerScore ∧
      standExampleResult.dealerScore = calculateHandScore standExampleResult.dealerHand ∧
      DEALER_STAND_THRESHOLD ≤ standExampleResult.dealerScore ∧
      (∃ drawn, standExampleResult.dealerHand = standExample.dealerHand ++ drawn ∧
        standExample.deck = drawn ++ standExampleResult.deck ∧
        ∀ k, k < drawn.length →
          calculateHandScore (standExample.dealerHand ++ drawn.take k) <
            DEALER_STAND_THRESHOLD) ∧
      standExampleResult.gameStatus =
        (if 21 < standExampleResult.dealerScore then Status.dealer_bust
         else if standExample.playerScore < standExampleResult.dealerScore then
           Status.dealer_win
         else if standExampleResult.dealerScore < standExample.playerScore then
           Status.player_win
         else Status.tie)) :=
  ⟨rfl, by decide, playerStand_spec standExample standExampleResult rfl (by decide)⟩

/-! ### Shuffling is a permutation (claims C4 and C10) -/

/-- Writing back the element already at a position leaves the list unchanged. -/
theorem set_getElem_self_eq {α : Type} (l : List α) (i : Nat) (h : i < l.length) :
    l.set i l[i] = l := by
  apply List.ext_getElem?
  intro n
  rw [List.getElem?_set']
  split
  · next hin => subst hin; simp [List.getElem?_eq_getElem h]
  · rfl

/-- Exchanging the entries at positions `i < j` permutes the list. -/
theorem set_set_perm {α : Type} {l : List α} {i j : Nat} {x y : α}
    (hij : i < j) (hxi : l[i]? = some x) (hyj : l[j]? = some y) :
    List.Perm ((l.set i y).set j x) l := by
  obtain ⟨hi, hxe⟩ := List.getElem?_eq_some_iff.mp hxi
  obtain ⟨hj, hye⟩ := List.getElem?_eq_some_iff.mp hyj
  subst hxe
  subst hye
  obtain ⟨m, hm⟩ : ∃ m, j - i = m + 1 := ⟨j - i - 1, by omega⟩
  have ha : i + 1 + m = j := by omega
  have hAlen : (l.take i).length = i := by
    simp [List.length_take]
    omega
  have hDlen : m < (l.drop (i + 1)).length := by
    simp [List.length_drop]
    omega
  have e0 : l.drop (i + 1) = (l.drop (i + 1)).take m ++ l[j] :: l.drop (j + 1) := by
    conv_lhs => rw [← List.take_append_drop m (l.drop (i + 1))]
    rw [List.drop_drop, ha, List.drop_eq_getElem_cons hj]
  have e1 : l = l.take i ++
      l[i] :: ((l.drop (i + 1)).take m ++ l[j] :: l.drop (j + 1)) := by
    conv_lhs => rw [← List.take_append_drop i l]
    rw [List.drop_eq_getElem_cons hi, ← e0]
  have e2 : (l.set i l[j]).set j l[i] = l.take i ++
      l[j] :: ((l.drop (i + 1)).take m ++ l[i] :: l.drop (j + 1)) := by
    rw [List.set_eq_take_cons_drop _ hi]
    rw [List.set_append_right _ _ (by omega : (l.take i).length ≤ j)]
    rw [hAlen, hm, List.set_cons_succ]
    rw [List.set_eq_take_cons_drop _ hDlen]
    rw [List.drop_drop]
    have hb : i + 1 + (m + 1) = j + 1 := by omega
    rw [hb]
  rw [e2]
  conv_rhs => rw [e1]
  have p1 : List.Perm ((l.drop (i + 1)).take m ++ l[i] :: l.drop (j + 1))
      (l[i] :: ((l.drop (i + 1)).take m ++ l.drop (j + 1))) := List.perm_middle
  have p2 : List.Perm ((l.drop (i + 1)).take m ++ l[j] :: l.drop (j + 1))
      (l[j] :: ((l.drop (i + 1)).take m ++ l.drop (j + 1))) := List.perm_middle
  have inner :
      List.Perm (l[j] :: ((l.drop (i + 1)).take m ++ l[i] :: l.drop (j + 1)))
      (l[i] :: ((l.drop (i + 1)).take m ++ l[j] :: l.drop (j + 1))) :=
    ((p1.cons _).trans (List.Perm.swap _ _ _)).trans (p2.symm.cons _)
  exact inner.append_left (l.take i)

/-- The destructuring swap of `shuffleDeck` permutes the deck, for any pair
of indices. -/
theorem swapList_perm {α : Type} (l : List α) (i j : Nat) : List.Perm (swapList l i j) l := by
  unfold swapList
  cases hx : l[i]? with
  | none => exact List.Perm.refl l
  | some x =>
    cases hy : l[j]? with
    | none => exact List.Perm.refl l
    | some y =>
      rcases Nat.lt_trichotomy i j with hij | rfl | hji
      · exact set_set_perm hij hx hy
      · have hxy : x = y := by rw [hx] at hy; exact Option.some.inj hy
        subst hxy
        show List.Perm ((l.set i x).set i x) l
        rw [List.set_set]
        obtain ⟨hi, rfl⟩ := List.getElem?_eq_some_iff.mp hx
        rw [set_getElem_self_eq l i hi]
      · show List.Perm ((l.set i y).set j x) l
        rw [List.set_comm _ _ _ (by omega : i ≠ j)]
        exact set_set_perm hji hy hx

/-- Every pass of the Fisher–Yates loop permutes the deck. -/
theorem fisherYatesAux_perm (choices : Nat → Nat) (n : Nat) :
    ∀ l : List Card, List.Perm (fisherYatesAux choices l n) l := by
  induction n with
  | zero => exact fun l => List.Perm.refl l
  | succ n ih =>
    intro l
    exact (ih _).trans (swapList_perm l (n + 1) (choices (n + 1)))

/-- A freshly created deck is a permutation of the ordered 52-card product,
whatever the random draws were. -/
theorem createDeck_perm (choices : Nat → Nat) : List.Perm (createDeck choices) orderedDeck := by
  unfold createDeck shuffleDeck
  exact fisherYatesAux_perm choices (orderedDeck.length - 1) orderedDeck

/-- C4: every deck returned by `createDeck` has 52 cards, contains each
(suit, rank) pair exactly once whatever the shuffle draws were, and assigns
every card's value by the fixed rank table (Ace 11, face 10, numeral its
face value). -/
theorem createDeck_spec (choices : Nat → Nat) (_hchoices : ∀ i, choices i ≤ i) :
    (createDeck choices).length = 52 ∧
    (∀ su rk,
      ((createDeck choices).countP fun c => decide (c.suit = su ∧ c.rank = rk)) = 1) ∧
    (∀ c ∈ createDeck choices, c.value = getCardValue c.rank) := by
  have hperm := createDeck_perm choices
  refine ⟨?_, ?_, ?_⟩
  · rw [hperm.length_eq]
    decide
  · have hbase : ∀ su rk,
        (orderedDeck.countP fun c => decide (c.suit = su ∧ c.rank = rk)) = 1 := by decide
    intro su rk
    rw [hperm.countP_eq]
    exact hbase su rk
  · have hbase : ∀ c ∈ orderedDeck, c.value = getCardValue c.rank := by decide
    exact fun c hc => hbase c (hperm.mem_iff.mp hc)

/-- Instance of C4 at the always-zero shuffle draw. -/
theorem createDeck_spec_witness :
    (∀ i : Nat, (fun _ : Nat => 0) i ≤ i) ∧
    ((createDeck fun _ => 0).length = 52 ∧
      (∀ su rk,
        ((createDeck fun _ => 0).countP fun c => decide (c.suit = su ∧ c.rank = rk)) = 1) ∧
      (∀ c ∈ createDeck fun _ => 0, c.value = getCardValue c.rank)) :=
  ⟨fun i => Nat.zero_le i, createDeck_spec (fun _ => 0) fun i => Nat.zero_le i⟩

/-- C10 as stated is false: the deck produced by the identity draws (a legal
Fisher–Yates outcome) holds cards of equal value at the distinct positions 1
and 14 (the 2 of hearts and the 2 of diamonds). -/
theorem createDeck_value_repeat_counterexample :
    (∀ i : Nat, (fun k : Nat => k) i ≤ i) ∧
    (1 : Nat) ≠ 14 ∧
    ((createDeck fun k => k).map Card.value)[1]? = some 2 ∧
    ((createDeck fun k => k).map Card.value)[14]? = some 2 :=
  ⟨fun i => Nat.le_refl i, by decide, by decide, by decide⟩

/-- C10 amended: what never repeats in a fresh deck is the (suit, rank) pair,
not the value — any two cards at distinct positions differ in suit or rank. -/
theorem createDeck_pairs_distinct (choices : Nat → Nat) (_hchoices : ∀ i, choices i ≤ i) :
    (createDeck choices).Pairwise fun a b => a.suit ≠ b.suit ∨ a.rank ≠ b.rank := by
  refine (List.Perm.pairwise_iff ?_ (createDeck_perm choices)).mpr (by decide)
  intro a b h
  rcases h with h | h
  · exact Or.inl (Ne.symm h)
  · exact Or.inr (Ne.symm h)

/-- Instance of the amended C10 at the always-zero shuffle draw. -/
theorem createDeck_pairs_distinct_witness :
    (∀ i : Nat, (fun _ : Nat => 0) i ≤ i) ∧
    (createDeck fun _ => 0).Pairwise fun a b => a.suit ≠ b.suit ∨ a.rank ≠ b.rank :=
  ⟨fun i => Nat.zero_le i, createDeck_pairs_distinct (fun _ => 0) fun i => Nat.zero_le i⟩

/-! ### Dealing has no exhaustion guard (claim C5) -/

/-- C5 as stated is false: `dealCards` is `deck.splice(0, count)`, which never
raises.  Asking 2 cards of a 1-card deck returns the single remaining card
and an empty deck where the spec-modelled guarded deal demands
`InsufficientCardsError`. -/
theorem dealCards_no_guard_counterexample :
    dealCardsSpec [⟨.hearts, .A, 11⟩] 2 = none ∧
    dealCards [⟨.hearts, .A, 11⟩] 2 = ([⟨.hearts, .A, 11⟩], []) :=
  ⟨by decide, by decide⟩

/-- C5 amended: `dealCards` never fails.  It removes and returns the first
`min count length` cards (all remaining cards when `count` over-asks),
leaves exactly the suffix, and returns exactly `count` cards whenever the
deck is large enough. -/
theorem dealCards_spec (deck : List Card) (count : Nat) :
    (dealCards deck count).1 ++ (dealCards deck count).2 = deck ∧
    (dealCards deck count).1.length = min count deck.length ∧
    (dealCards deck count).2.length = deck.length - count ∧
    (count ≤ deck.length → (dealCards deck count).1.length = count) := by
  refine ⟨List.take_append_drop _ _, by simp [dealCards], by simp [dealCards], fun h => ?_⟩
  simp [dealCards]
  omega

/-- Instance of the amended C5: dealing 2 from a 3-card deck. -/
theorem dealCards_spec_witness :
    (dealCards threeCardDeck 2).1 ++ (dealCards threeCardDeck 2).2 = threeCardDeck ∧
    (dealCards threeCardDeck 2).1.length = min 2 threeCardDeck.length ∧
    (dealCards threeCardDeck 2).2.length = threeCardDeck.length - 2 ∧
    (2 ≤ threeCardDeck.length → (dealCards threeCardDeck 2).1.length = 2) :=
  dealCards_spec threeCardDeck 2

/-! ### Hitting a finished round is not rejected (claim C6) -/

/-- C6 as stated is false: `playerHit` never checks `isGameOver`.  On a
finished round with a card left it returns normally and changes the state —
no `InvalidActionError`, and the state is not left as it was. -/
theorem playerHit_no_guard_counterexample :
    finishedExample.isGameOver = true ∧
    playerHit finishedExample = some finishedExampleHit ∧
    finishedExampleHit ≠ finishedExample :=
  ⟨rfl, by decide, by decide⟩

/-- C6 amended: `playerHit` performs no game-over guard.  On any finished
state whose deck is non-empty it deals the front card onto the player's hand
and applies the ordinary hit transition, re-deriving `isGameOver` and
`gameStatus` from the new hand. -/
theorem playerHit_ignores_game_over (s : GameState) (c : Card) (rest : List Card)
    (_hgo : s.isGameOver = true) (hdeck : s.deck = c :: rest) :
    ∃ s', playerHit s = some s' ∧
      s'.playerHand = s.playerHand ++ [c] ∧
      s'.deck = rest ∧
      s'.isGameOver = decide (21 < calculateHandScore (s.playerHand ++ [c])) := by
  obtain ⟨deck, ph, dh, ps, ds, ipt, igo, gs⟩ := s
  simp only at hdeck
  subst hdeck
  exact ⟨_, rfl, rfl, rfl, rfl⟩

/-- Instance of the amended C6 at the finished example state. -/
theorem playerHit_ignores_game_over_witness :
    finishedExample.isGameOver = true ∧
    (∃ s', playerHit finishedExample = some s' ∧
      s'.playerHand = finishedExample.playerHand ++ [⟨.hearts, .r2, 2⟩] ∧
      s'.deck = [] ∧
      s'.isGameOver =
        decide (21 < calculateHandScore (finishedExample.playerHand ++ [⟨.hearts, .r2, 2⟩]))) :=
  ⟨rfl, playerHit_ignores_game_over finishedExample ⟨.hearts, .r2, 2⟩ [] rfl rfl⟩

/-! ### Dealer-loop termination (claim C7) -/

/-- C7's stated justification is false: a drawn card need not raise the
dealer's score.  On the soft 13 (Ace + 2, below the stand threshold, so the
dealer does draw) a King leaves the recomputed score exactly at 13. -/
theorem dealer_draw_no_increase_counterexample :
    calculateHandScore [⟨.hearts, .A, 11⟩, ⟨.clubs, .r2, 2⟩] = 13 ∧
    calculateHandScore [⟨.hearts, .A, 11⟩, ⟨.clubs, .r2, 2⟩] < DEALER_STAND_THRESHOLD ∧
    calculateHandScore ([⟨.hearts, .A, 11⟩, ⟨.clubs, .r2, 2⟩] ++ [⟨.spades, .K, 10⟩]) = 13 :=
  ⟨by decide, by decide, by decide⟩

/-- Each Ace contributes 11 = 10 + 1 and every other rank at least 1 to the
raw total, so the total covers ten points per Ace plus one point per card. -/
theorem handTotal_ge (hand : List Card)
    (hw : ∀ c ∈ hand, c.value = getCardValue c.rank) :
    10 * aceCount hand + hand.length ≤ handTotal hand := by
  induction hand with
  | nil => simp [aceCount, handTotal]
  | cons c t ih =>
    have hc := hw c (by simp)
    have iht := ih fun x hx => hw x (by simp [hx])
    have hone : ∀ r : Rank, 1 ≤ getCardValue r := by decide
    have htot : handTotal (c :: t) = c.value + handTotal t := by
      simp [handTotal]
    by_cases hA : c.rank = Rank.A
    · have hv : c.value = 11 := by rw [hc, hA]; rfl
      have hcount : aceCount (c :: t) = aceCount t + 1 := by
        simp [aceCount, List.countP_cons, hA]
      rw [hcount, htot, List.length_cons]
      omega
    · have hv : 1 ≤ c.value := by rw [hc]; exact hone c.rank
      have hcount : aceCount (c :: t) = aceCount t := by
        simp [aceCount, List.countP_cons, hA]
      rw [hcount, htot, List.length_cons]
      omega

/-- A properly-valued hand scores at least one point per card even after the
ace reduction. -/
theorem length_le_calculateHandScore (hand : List Card)
    (hw : ∀ c ∈ hand, c.value = getCardValue c.rank) :
    hand.length ≤ calculateHandScore hand := by
  obtain ⟨r, hr, heq, _, _⟩ := reduceAces_spec (aceCount hand) (handTotal hand)
  have heq' : calculateHandScore hand = handTotal hand - 10 * r := heq
  have := handTotal_ge hand hw
  omega

/-- The dealer loop cannot exhaust a properly-valued supply of 17 cards:
once hand plus deck hold at least 17 cards the loop reaches the threshold
before running out. -/
theorem dealerDraw_total (deck : List Card) :
    ∀ hand : List Card,
      (∀ c ∈ deck, c.value = getCardValue c.rank) →
      (∀ c ∈ hand, c.value = getCardValue c.rank) →
      DEALER_STAND_THRESHOLD ≤ hand.length + deck.length →
      ∃ r, dealerDraw deck hand = some r := by
  induction deck with
  | nil =>
    intro hand _ hwh hlen
    have hsc := length_le_calculateHandScore hand hwh
    simp only [List.length_nil, Nat.add_zero] at hlen
    refine ⟨([], hand), ?_⟩
    simp only [dealerDraw, if_neg (by omega : ¬ calculateHandScore hand < DEALER_STAND_THRESHOLD)]
  | cons c rest ih =>
    intro hand hwd hwh hlen
    by_cases hlow : calculateHandScore hand < DEALER_STAND_THRESHOLD
    · have hwd' : ∀ x ∈ rest, x.value = getCardValue x.rank := fun x hx => hwd x (by simp [hx])
      have hwh' : ∀ x ∈ hand ++ [c], x.value = getCardValue x.rank := by
        intro x hx
        rcases List.mem_append.mp hx with hx | hx
        · exact hwh x hx
        · simp only [List.mem_singleton] at hx
          subst hx
          exact hwd x (by simp)
      have hlen' : DEALER_STAND_THRESHOLD ≤ (hand ++ [c]).length + rest.length := by
        simp only [List.length_append, List.length_singleton, List.length_cons] at hlen ⊢
        omega
      obtain ⟨r, hr⟩ := ih (hand ++ [c]) hwd' hwh' hlen'
      exact ⟨r, by simp only [dealerDraw, if_pos hlow, hr]⟩
    · exact ⟨(c :: rest, hand), by simp only [dealerDraw, if_neg hlow]⟩

/-- C7 amended: the dealer loop terminates not because each draw raises the
score, but because the recomputed score of a properly-valued hand is at
least its card count; hence with at least 17 properly-valued cards in the
deck the loop reaches 17 before exhausting it and `playerStand` returns a
state. -/
theorem playerStand_terminates :
    (∀ hand : List Card, (∀ c ∈ hand, c.value = getCardValue c.rank) →
      hand.length ≤ calculateHandScore hand) ∧
    (∀ s : GameState,
      (∀ c ∈ s.deck, c.value = getCardValue c.rank) →
      (∀ c ∈ s.dealerHand, c.value = getCardValue c.rank) →
      17 ≤ s.deck.length →
      ∃ s', playerStand s = some s') := by
  refine ⟨length_le_calculateHandScore, fun s hwd hwh hlen => ?_⟩
  have hthr : DEALER_STAND_THRESHOLD ≤ s.dealerHand.length + s.deck.length := by
    unfold DEALER_STAND_THRESHOLD
    omega
  obtain ⟨r, hr⟩ := dealerDraw_total s.deck s.dealerHand hwd hwh hthr
  obtain ⟨deck', hand'⟩ := r
  refine ⟨{ s with
    deck := deck'
    dealerHand := hand'
    dealerScore := calculateHandScore hand'
    isPlayerTurn := false
    isGameOver := true
    gameStatus :=
      if 21 < calculateHandScore hand' then .dealer_bust
      else if s.playerScore < calculateHandScore hand' then .dealer_win
      else if calculateHandScore hand' < s.playerScore then .player_win
      else .tie }, ?_⟩
  unfold playerStand
  rw [hr]

/-- Instance of C7: on a state with 17 deuces left in the deck, standing
returns a state (the dealer draws from 12 up to 18 and stops). -/
theorem playerStand_terminates_witness :
    ∃ s', playerStand standExample17 = some s' :=
  playerStand_terminates.2 standExample17 (by decide) (by decide) (by decide)

/-! ### Card-count conservation (claim C8) -/

/-- Shape of a successful hit: the front card of the deck moves onto the
player's hand and the dealer's hand is untouched. -/
theorem playerHit_shape (s s' : GameState) (h : playerHit s = some s') :
    ∃ c rest, s.deck = c :: rest ∧ s'.deck = rest ∧
      s'.playerHand = s.playerHand ++ [c] ∧ s'.dealerHand = s.dealerHand := by
  cases hdeck : s.deck with
  | nil =>
    unfold playerHit at h
    rw [hdeck] at h
    exact absurd h (by simp)
  | cons c rest =>
    unfold playerHit at h
    rw [hdeck] at h
    simp only [Option.some.injEq] at h
    subst h
    exact ⟨c, rest, rfl, rfl, rfl, rfl⟩

/-- Shape of a successful stand: the dealer's hand grows by the cards taken
off the front of the deck and the player's hand is untouched. -/
theorem playerStand_shape (s s' : GameState) (h : playerStand s = some s') :
    ∃ drawn, s'.dealerHand = s.dealerHand ++ drawn ∧ s.deck = drawn ++ s'.deck ∧
      s'.playerHand = s.playerHand := by
  unfold playerStand at h
  cases hd : dealerDraw s.deck s.dealerHand with
  | none => rw [hd] at h; exact absurd h (by simp)
  | some r =>
    obtain ⟨deck₁, hand₁⟩ := r
    rw [hd] at h
    simp only [Option.some.injEq] at h
    subst h
    obtain ⟨drawn, hh, hdk, _, _⟩ := dealerDraw_sound s.deck s.dealerHand deck₁ hand₁ hd
    exact ⟨drawn, hh, hdk, rfl⟩

/-- C8: in every reachable state with all deals fully served, player hand,
dealer hand and remaining deck together hold exactly the 52 cards of the
round's deck, and each transition only appends dealt cards to a hand. -/
theorem card_conservation :
    (∀ s, Reachable s →
      s.playerHand.length + s.dealerHand.length + s.deck.length = 52) ∧
    (∀ s s', playerHit s = some s' →
      ∃ c, s'.playerHand = s.playerHand ++ [c] ∧ s'.dealerHand = s.dealerHand) ∧
    (∀ s s', playerStand s = some s' →
      ∃ drawn, s'.dealerHand = s.dealerHand ++ drawn ∧ s'.playerHand = s.playerHand) := by
  refine ⟨?_, ?_, ?_⟩
  · intro s hs
    induction hs with
    | start choices hch =>
      have hlen : (createDeck choices).length = 52 := by
        rw [(createDeck_perm choices).length_eq]
        decide
      simp [startNewGame, dealCards, List.length_take, List.length_drop, hlen]
    | hit hr hstep ih =>
      obtain ⟨c, rest, hdeck, h1, h2, h3⟩ := playerHit_shape _ _ hstep
      rw [h1, h2, h3]
      rw [hdeck] at ih
      simp only [List.length_append, List.length_singleton, List.length_cons,
        List.length_nil] at ih ⊢
      omega
    | stand hr hstep ih =>
      obtain ⟨drawn, h1, h2, h3⟩ := playerStand_shape _ _ hstep
      rw [h1, h3]
      rw [h2] at ih
      simp only [List.length_append] at ih ⊢
      omega
  · intro s s' h
    obtain ⟨c, rest, _, _, h3, h4⟩ := playerHit_shape _ _ h
    exact ⟨c, h3, h4⟩
  · intro s s' h
    obtain ⟨drawn, h1, _, h3⟩ := playerStand_shape _ _ h
    exact ⟨drawn, h1, h3⟩

/-- Instance of C8 at the freshly started round with the all-zero draws:
2 + 2 + 48 = 52. -/
theorem card_conservation_witness :
    (startNewGame fun _ => 0).playerHand.length +
      (startNewGame fun _ => 0).dealerHand.length +
      (startNewGame fun _ => 0).deck.length = 52 :=
  card_conservation.1 _ (Reachable.start (fun _ => 0) fun i => Nat.zero_le i)

end Blackjack
